import Mathlib

/-!
Shallow embedding of `app.py` (Future-Me simulator: GitHub commit ingestion,
context formatting, per-session chat orchestration, startup credential checks),
with theorems checking the natural-language specification against it.
-/

/-- Author information of a commit (`c.commit.author` in PyGithub); `date`
holds the already-rendered ISO timestamp (`c.commit.author.date.isoformat()`). -/
structure GitAuthor where
  name : String
  email : String
  date : String
deriving DecidableEq

/-- One commit as consumed by `fetch_all_repos_commits`: `c.commit.message`,
`c.commit.author` (possibly absent), `c.sha`, `c.html_url`. -/
structure Commit where
  message : String
  author : Option GitAuthor
  sha : String
  html_url : String
deriving DecidableEq

/-- One repository as returned by `user.get_repos()`.  `get_commits = none`
models `repo.get_commits()` raising `GithubException` (for example an empty
or inaccessible repository); `some cs` is the commit list in the provider's
native order. -/
structure Repo where
  full_name : String
  updated_at : Nat
  get_commits : Option (List Commit)
deriving DecidableEq

/-- The metadata dict attached to a LangChain `Document`.  Each field is
`none` when the corresponding key is missing from the dict. -/
structure Metadata where
  source : Option String := none
  repo : Option String := none
  sha : Option String := none
  author_name : Option String := none
  author_email : Option String := none
  date : Option String := none
  url : Option String := none
deriving DecidableEq

/-- A LangChain `Document`: page content plus metadata. -/
structure Document where
  page_content : String
  metadata : Metadata
deriving DecidableEq

/-- Python `str.strip()` on the character list: drop leading and trailing
whitespace. -/
def pyStripCore (cs : List Char) : List Char :=
  ((cs.dropWhile Char.isWhitespace).reverse.dropWhile Char.isWhitespace).reverse

/-- Python `str.strip()`: remove leading and trailing whitespace.  (Defined
structurally over the character list so that concrete inputs evaluate inside
the kernel.) -/
def pyStrip (s : String) : String := String.mk (pyStripCore s.data)

/-- Python string slicing `s[:n]`: the first `n` characters. -/
def pyTake (s : String) (n : Nat) : String := String.mk (s.data.take n)

/-- Document built for one commit (lines 83-97 of `app.py`): `msg` is the
already-stripped commit message. -/
def commitDoc (repo_full_name : String) (c : Commit) (msg : String) : Document :=
  { page_content := msg
    metadata :=
      { source := some "github"
        repo := some repo_full_name
        sha := some c.sha
        author_name := some (match c.author with | some a => a.name | none => "Unknown")
        author_email := some (match c.author with | some a => a.email | none => "")
        date := match c.author with | some a => some a.date | none => none
        url := some c.html_url } }

/-- Inner `for c in commits` loop of `fetch_all_repos_commits` (lines 74-98):
checks the global cap, strips the message, skips blank messages, otherwise
appends a document and increments the shared counter. -/
def commits_loop (max_global_commits : Nat) (repo_name : String) :
    List Commit → List Document → Nat → List Document × Nat
  | [], all_docs, total_commits_collected => (all_docs, total_commits_collected)
  | c :: cs, all_docs, total_commits_collected =>
    if max_global_commits ≤ total_commits_collected then
      (all_docs, total_commits_collected)
    else
      let msg := pyStrip c.message
      if msg = "" then
        commits_loop max_global_commits repo_name cs all_docs total_commits_collected
      else
        commits_loop max_global_commits repo_name cs
          (all_docs ++ [commitDoc repo_name c msg]) (total_commits_collected + 1)

/-- Outer `for repo in repos` loop of `fetch_all_repos_commits` (lines 65-103):
breaks when the cap is reached, skips a repository whose commit fetch raised
(`except GithubException: continue`), otherwise runs the inner loop. -/
def repos_loop (max_global_commits : Nat) :
    List Repo → List Document → Nat → List Document × Nat
  | [], all_docs, total_commits_collected => (all_docs, total_commits_collected)
  | r :: rs, all_docs, total_commits_collected =>
    if max_global_commits ≤ total_commits_collected then
      (all_docs, total_commits_collected)
    else
      match r.get_commits with
      | none => repos_loop max_global_commits rs all_docs total_commits_collected
      | some cs =>
        let st := commits_loop max_global_commits r.full_name cs all_docs
          total_commits_collected
        repos_loop max_global_commits rs st.1 st.2

/-- Stable insertion of a repository into a list sorted by `updated_at`
descending: walk past strictly more recent entries, insert before the first
entry no more recent. -/
def insert_by_updated (r : Repo) : List Repo → List Repo
  | [] => [r]
  | x :: xs =>
    if r.updated_at < x.updated_at then x :: insert_by_updated r xs
    else r :: x :: xs

/-- Stable sort by `updated_at` descending, the effect of
`repos.sort(key=lambda r: r.updated_at, reverse=True)` (line 63 of `app.py`;
Python's list sort is stable, so equal keys keep their original order, which
this insertion sort reproduces). -/
def sort_repos_by_updated : List Repo → List Repo
  | [] => []
  | r :: rs => insert_by_updated r (sort_repos_by_updated rs)

/-- `fetch_all_repos_commits(token, max_global_commits)` (lines 47-106 of
`app.py`).  The list `repos` stands for what `gh.get_user().get_repos()`
returns for the authenticated token; the function sorts it by most recently
updated and runs the capped collection loop. -/
def fetch_all_repos_commits (repos : List Repo) (max_global_commits : Nat) :
    List Document :=
  let sorted := sort_repos_by_updated repos
  (repos_loop max_global_commits sorted [] 0).1

/-- One chunk of `format_context` (lines 195-200 of `app.py`): reads the
metadata dict with defaults (`repo` defaults to "unknown-repo", `date` and
`sha` to the empty string), takes the first 7 characters of the sha, builds
the bracketed identifying line, strips it, and appends the page content. -/
def renderChunk (d : Document) : String :=
  let repo := d.metadata.repo.getD "unknown-repo"
  let date := d.metadata.date.getD ""
  let sha := pyTake (d.metadata.sha.getD "") 7
  let pfx := pyStrip ("[" ++ repo ++ " @ " ++ date ++ " " ++ sha ++ "]")
  pfx ++ "\n" ++ d.page_content

/-- The `chunks` accumulation loop of `format_context`. -/
def format_chunks : List Document → List String → List String
  | [], chunks => chunks
  | d :: ds, chunks => format_chunks ds (chunks ++ [renderChunk d])

/-- `format_context(docs)` (lines 192-201 of `app.py`): renders each document
as a labeled chunk and joins the chunks with a blank line. -/
def format_context (docs : List Document) : String :=
  String.intercalate "\n\n" (format_chunks docs [])

/-- A LangChain chat message; `human` is appended by `add_user_message`, `ai`
by `add_ai_message`, `system` comes from the prompt template. -/
inductive ChatMsg
  | system (content : String)
  | human (content : String)
  | ai (content : String)
deriving DecidableEq

/-- The module-level `_session_store` dict mapping session ids to chat
histories, as an association list. -/
abbrev SessionStore := List (String × List ChatMsg)

/-- Dict lookup in the session store. -/
def storeLookup : SessionStore → String → Option (List ChatMsg)
  | [], _ => none
  | (k, v) :: rest, sid => if k = sid then some v else storeLookup rest sid

/-- Dict assignment in the session store: replace the entry if the key
exists, otherwise append a new entry (Python dict insertion order). -/
def storeSet : SessionStore → String → List ChatMsg → SessionStore
  | [], sid, h => [(sid, h)]
  | (k, v) :: rest, sid, h =>
    if k = sid then (sid, h) :: rest else (k, v) :: storeSet rest sid h

/-- History currently recorded for a session id (empty when the id has no
entry yet). -/
def histOf (store : SessionStore) (sid : String) : List ChatMsg :=
  (storeLookup store sid).getD []

/-- `get_session_history(session_id)` (lines 208-211 of `app.py`): lazily
creates an empty history for an unseen id.  Returns the history together
with the (possibly extended) store, since the Python function mutates the
module-level dict. -/
def get_session_history (store : SessionStore) (session_id : String) :
    List ChatMsg × SessionStore :=
  match storeLookup store session_id with
  | some h => (h, store)
  | none => ([], storeSet store session_id [])

/-- Request body of `POST /api/chat`. -/
structure ChatRequest where
  message : String
  session_id : Option String
deriving DecidableEq

/-- Response body of `POST /api/chat`. -/
structure ChatResponse where
  reply : String
  session_id : String
deriving DecidableEq

/-- External collaborators of the `chat` handler: the retriever
(`retriever.invoke`), the model (`llm.invoke`, which may raise, hence
`Except`), and the rendered persona system prompt (the module-level
`system_prompt` built from `FUTURE_ME_NAME` and `FUTURE_ME_YEARS_AHEAD`). -/
structure Deps where
  retrieve : String → List Document
  llm_invoke : List ChatMsg → Except String String
  system_prompt : String

/-- `session_id = req.session_id or str(uuid.uuid4())` (line 238 of
`app.py`): a missing or empty (falsy) session id is replaced by the freshly
generated UUID, passed here as `freshId`. -/
def resolve_session_id (freshId : String) : Option String → String
  | none => freshId
  | some s => if s = "" then freshId else s

/-- The message list produced by `prompt.format_prompt(...).to_messages()`
(lines 179-189 and 248-252 of `app.py`): persona system prompt, prior
history, a system block carrying the retrieved context, then the user turn. -/
def prompt_messages (system_prompt : String) (chat_history : List ChatMsg)
    (context input : String) : List ChatMsg :=
  [ChatMsg.system system_prompt] ++ chat_history ++
    [ChatMsg.system
      ("Here are some relevant snippets from my past GitHub activity:\n" ++ context),
     ChatMsg.human input]

/-- The `chat` handler (lines 236-263 of `app.py`): resolve the session id,
get or create the history, retrieve and format context, build the prompt,
invoke the model, and only on success append the user and assistant turns.
Returns the outcome together with the final `_session_store`; a model
failure propagates as `Except.error` with the store as the handler left it. -/
def chat (deps : Deps) (freshId : String) (req : ChatRequest)
    (store : SessionStore) : Except String ChatResponse × SessionStore :=
  let session_id := resolve_session_id freshId req.session_id
  let hs := get_session_history store session_id
  let docs := deps.retrieve req.message
  let context_str := format_context docs
  let pm := prompt_messages deps.system_prompt hs.1 context_str req.message
  match deps.llm_invoke pm with
  | Except.error e => (Except.error e, hs.2)
  | Except.ok answer =>
    (Except.ok { reply := answer, session_id := session_id },
     storeSet hs.2 session_id
       (hs.1 ++ [ChatMsg.human req.message, ChatMsg.ai answer]))

/-- Module-level credential checks (lines 29-44 of `app.py`): `os.getenv`
yields `none` when the variable is absent, and Python's `if not X` also
fires on an empty string. -/
def startup_checks (groq_api_key github_token : Option String) :
    Except String Unit :=
  if groq_api_key.getD "" = "" then
    Except.error "GROQ_API_KEY is required (Groq Llama 3 key)"
  else if github_token.getD "" = "" then
    Except.error "GITHUB_TOKEN is required"
  else
    Except.ok ()

/-- Module import sequence up to `build_or_refresh_index()` (lines 29-149 of
`app.py`): the credential checks run first; only if they pass does the
process ingest commits and build the index (modelled by the ingested
document list, the data the index is built from). -/
def startup (groq_api_key github_token : Option String) (repos : List Repo)
    (max_commits : Nat) : Except String (List Document) :=
  match startup_checks groq_api_key github_token with
  | Except.error e => Except.error e
  | Except.ok _ => Except.ok (fetch_all_repos_commits repos max_commits)

/-- Transform a repository by removing every commit whose message is empty
or whitespace-only (the records `fetch_all_repos_commits` filters out). -/
def dropBlankCommits (r : Repo) : Repo :=
  { r with get_commits :=
      r.get_commits.map (List.filter (fun c => !decide (pyStrip c.message = ""))) }

/-! Concrete fixtures used by the witness theorems. -/

def mkCommit (m sha : String) : Commit :=
  { message := m
    author := some { name := "Aziz", email := "a@b.c", date := "2024-01-01T00:00:00" }
    sha := sha
    html_url := "https://example.com/c" }

def repoA : Repo :=
  { full_name := "me/a", updated_at := 2,
    get_commits := some [mkCommit "a1" "sha1aaa", mkCommit "a2" "sha2aaa",
      mkCommit "a3" "sha3aaa", mkCommit "a4" "sha4aaa", mkCommit "a5" "sha5aaa"] }

def repoB : Repo :=
  { full_name := "me/b", updated_at := 1,
    get_commits := some [mkCommit "b1" "shb1bbb", mkCommit "b2" "shb2bbb"] }

def repoErr : Repo :=
  { full_name := "me/broken", updated_at := 3, get_commits := none }

def repoBlank : Repo :=
  { full_name := "me/blank", updated_at := 5,
    get_commits := some [mkCommit "   " "shw0www", mkCommit "hello" "shw1www"] }

def depsFail : Deps :=
  { retrieve := fun _ => [], llm_invoke := fun _ => Except.error "boom",
    system_prompt := "persona" }

def depsOk : Deps :=
  { retrieve := fun _ => [], llm_invoke := fun _ => Except.ok "Future-Aziz: yo",
    system_prompt := "persona" }

def docNoMeta : Document := { page_content := "hello", metadata := {} }

/-! Invariants of the capped collection loops. -/

lemma commits_loop_ge (maxG : Nat) (rn : String) (cs : List Commit)
    (docs : List Document) (total : Nat) (h : maxG ≤ total) :
    commits_loop maxG rn cs docs total = (docs, total) := by
  cases cs with
  | nil => rfl
  | cons c cs => simp [commits_loop, h]

lemma repos_loop_ge (maxG : Nat) (rs : List Repo) (docs : List Document)
    (total : Nat) (h : maxG ≤ total) :
    repos_loop maxG rs docs total = (docs, total) := by
  cases rs with
  | nil => rfl
  | cons r rs => simp [repos_loop, h]

lemma commits_loop_len (maxG : Nat) (rn : String) (cs : List Commit) :
    ∀ (docs : List Document) (total : Nat), docs.length = total →
      (commits_loop maxG rn cs docs total).1.length =
        (commits_loop maxG rn cs docs total).2 ∧
      (total ≤ maxG → (commits_loop maxG rn cs docs total).2 ≤ maxG) := by
  induction cs with
  | nil =>
    intro docs total h
    exact ⟨by simpa [commits_loop] using h, fun ht => by simpa [commits_loop] using ht⟩
  | cons c cs ih =>
    intro docs total h
    by_cases hcap : maxG ≤ total
    · constructor
      · simpa [commits_loop, hcap] using h
      · intro ht; simpa [commits_loop, hcap] using ht
    · by_cases hmsg : pyStrip c.message = ""
      · have := ih docs total h
        exact ⟨by simpa [commits_loop, hcap, hmsg] using this.1,
          fun ht => by simpa [commits_loop, hcap, hmsg] using this.2 ht⟩
      · have := ih (docs ++ [commitDoc rn c (pyStrip c.message)]) (total + 1)
          (by simp [h])
        constructor
        · simpa [commits_loop, hcap, hmsg] using this.1
        · intro _
          have hlt : total + 1 ≤ maxG := Nat.succ_le_of_lt (Nat.lt_of_not_le hcap)
          simpa [commits_loop, hcap, hmsg] using this.2 hlt

lemma repos_loop_len (maxG : Nat) (rs : List Repo) :
    ∀ (docs : List Document) (total : Nat), docs.length = total →
      (repos_loop maxG rs docs total).1.length =
        (repos_loop maxG rs docs total).2 ∧
      (total ≤ maxG → (repos_loop maxG rs docs total).2 ≤ maxG) := by
  induction rs with
  | nil =>
    intro docs total h
    exact ⟨by simpa [repos_loop] using h, fun ht => by simpa [repos_loop] using ht⟩
  | cons r rs ih =>
    intro docs total h
    by_cases hcap : maxG ≤ total
    · constructor
      · simpa [repos_loop, hcap] using h
      · intro ht; simpa [repos_loop, hcap] using ht
    · cases hc : r.get_commits with
      | none =>
        have := ih docs total h
        exact ⟨by simpa [repos_loop, hcap, hc] using this.1,
          fun ht => by simpa [repos_loop, hcap, hc] using this.2 ht⟩
      | some cs =>
        have hcl := commits_loop_len maxG r.full_name cs docs total h
        have hrec := ih (commits_loop maxG r.full_name cs docs total).1
          (commits_loop maxG r.full_name cs docs total).2 hcl.1
        constructor
        · simpa [repos_loop, hcap, hc] using hrec.1
        · intro _
          have hle : (commits_loop maxG r.full_name cs docs total).2 ≤ maxG :=
            hcl.2 (Nat.le_of_lt (Nat.lt_of_not_le hcap))
          simpa [repos_loop, hcap, hc] using hrec.2 hle

/-- C1 (global cap invariant): for every list of collections, with records of
any number and content, and every cap, `fetch_all_repos_commits` returns at
most `max_global_commits` documents in total across all collections: the
shared running counter stops consumption within a collection and stops
enumeration of further collections once it reaches the cap. -/
theorem fetch_global_cap (repos : List Repo) (max_global_commits : Nat) :
    (fetch_all_repos_commits repos max_global_commits).length ≤
      max_global_commits := by
  have h := repos_loop_len max_global_commits (sort_repos_by_updated repos) [] 0 rfl
  have h2 := h.2 (Nat.zero_le _)
  simpa [fetch_all_repos_commits, h.1] using h2

/-! Context formatting. -/

lemma format_chunks_eq (ds : List Document) :
    ∀ acc, format_chunks ds acc = acc ++ ds.map renderChunk := by
  induction ds with
  | nil => intro acc; simp [format_chunks]
  | cons d ds ih => intro acc; simp [format_chunks, ih]

/-- C7 (context determinism): `format_context` is a pure function, so two
invocations on the same input sequence yield byte-identical output; moreover
the output is exactly the per-unit blocks joined in input order (no
re-sorting). -/
theorem format_context_deterministic (docs : List Document) :
    format_context docs = format_context docs ∧
    format_context docs = String.intercalate "\n\n" (docs.map renderChunk) := by
  refine ⟨rfl, ?_⟩
  simp [format_context, format_chunks_eq]

/-- C5 counterexample: on a unit whose metadata is entirely absent, the
formatted block is "[unknown-repo @  ]" followed by the text — the missing
origin collection renders as the placeholder "unknown-repo", not as the
empty string the claim predicts. -/
theorem format_context_missing_repo_counterexample :
    format_context [docNoMeta] = "[unknown-repo @  ]" ++ "\n" ++ "hello" ∧
    format_context [docNoMeta] ≠ "[ @  ]" ++ "\n" ++ "hello" := by
  exact ⟨by decide, by decide⟩

lemma format_context_congr (pre post : List Document) (d d' : Document)
    (h : renderChunk d = renderChunk d') :
    format_context (pre ++ d :: post) = format_context (pre ++ d' :: post) := by
  simp [format_context, format_chunks_eq, h]

/-- C5 as amended: for every unit passed to `format_context`, in any
position of any retrieved context, a missing timestamp renders exactly as
an explicitly empty-string timestamp would (the formatted output does not
change when the missing field is replaced by `some ""`), a missing record
identifier likewise renders as the empty string, while a missing origin
collection renders as the placeholder "unknown-repo"; formatting is a
total function and never raises. -/
theorem format_context_missing_fields (pre post : List Document)
    (d : Document) :
    (d.metadata.date = none →
      format_context (pre ++ d :: post) =
        format_context
          (pre ++ { d with metadata := { d.metadata with date := some "" } } :: post)) ∧
    (d.metadata.sha = none →
      format_context (pre ++ d :: post) =
        format_context
          (pre ++ { d with metadata := { d.metadata with sha := some "" } } :: post)) ∧
    (d.metadata.repo = none →
      format_context (pre ++ d :: post) =
        format_context
          (pre ++ { d with metadata := { d.metadata with repo := some "unknown-repo" } } :: post)) := by
  refine ⟨fun hd => ?_, fun hd => ?_, fun hd => ?_⟩ <;>
    exact format_context_congr pre post _ _ (by simp [renderChunk, hd])

/-- C5 witness: a unit with every optional field missing satisfies all
three premises, and its rendering equals the explicit-default rendering. -/
theorem format_context_missing_fields_witness :
    format_context ([] ++ docNoMeta :: []) =
      format_context
        ([] ++ { docNoMeta with metadata := { docNoMeta.metadata with date := some "" } } :: []) ∧
    format_context ([] ++ docNoMeta :: []) =
      format_context
        ([] ++ { docNoMeta with metadata := { docNoMeta.metadata with sha := some "" } } :: []) ∧
    format_context ([] ++ docNoMeta :: []) =
      format_context
        ([] ++ { docNoMeta with metadata := { docNoMeta.metadata with repo := some "unknown-repo" } } :: []) := by
  obtain ⟨h1, h2, h3⟩ := format_context_missing_fields [] [] docNoMeta
  exact ⟨h1 rfl, h2 rfl, h3 rfl⟩

/-! Session store and chat handler. -/

lemma storeLookup_storeSet_self (s : SessionStore) (k : String)
    (v : List ChatMsg) : storeLookup (storeSet s k v) k = some v := by
  induction s with
  | nil => simp [storeSet, storeLookup]
  | cons e rest ih =>
    obtain ⟨k', v'⟩ := e
    by_cases h : k' = k
    · simp [storeSet, storeLookup, h]
    · simp [storeSet, storeLookup, h, ih]

lemma storeLookup_storeSet_other (s : SessionStore) (k : String)
    (v : List ChatMsg) (k' : String) (h : k' ≠ k) :
    storeLookup (storeSet s k v) k' = storeLookup s k' := by
  have hk : ¬(k = k') := fun he => h he.symm
  induction s with
  | nil => simp [storeSet, storeLookup, hk]
  | cons e rest ih =>
    obtain ⟨k0, v0⟩ := e
    by_cases h0 : k0 = k
    · subst h0
      simp [storeSet, storeLookup, hk]
    · simp [storeSet, storeLookup, h0, ih]

lemma get_session_history_fst (store : SessionStore) (sid : String) :
    (get_session_history store sid).1 = histOf store sid := by
  unfold get_session_history histOf
  cases storeLookup store sid <;> simp

lemma histOf_get_session_history_snd (store : SessionStore) (sid k : String) :
    histOf (get_session_history store sid).2 k = histOf store k := by
  unfold get_session_history
  cases h : storeLookup store sid with
  | some hist => rfl
  | none =>
    by_cases hk : k = sid
    · subst hk
      unfold histOf
      rw [storeLookup_storeSet_self, h]
      rfl
    · unfold histOf
      rw [storeLookup_storeSet_other _ _ _ _ hk]

lemma chat_llm_error (deps : Deps) (freshId : String) (req : ChatRequest)
    (store : SessionStore) (e : String)
    (h : deps.llm_invoke (prompt_messages deps.system_prompt
        (get_session_history store (resolve_session_id freshId req.session_id)).1
        (format_context (deps.retrieve req.message)) req.message) =
      Except.error e) :
    chat deps freshId req store =
      (Except.error e,
       (get_session_history store (resolve_session_id freshId req.session_id)).2) := by
  unfold chat
  simp only [h]

lemma chat_llm_ok (deps : Deps) (freshId : String) (req : ChatRequest)
    (store : SessionStore) (answer : String)
    (h : deps.llm_invoke (prompt_messages deps.system_prompt
        (get_session_history store (resolve_session_id freshId req.session_id)).1
        (format_context (deps.retrieve req.message)) req.message) =
      Except.ok answer) :
    chat deps freshId req store =
      (Except.ok
        (ChatResponse.mk answer (resolve_session_id freshId req.session_id)),
       storeSet (get_session_history store (resolve_session_id freshId req.session_id)).2
         (resolve_session_id freshId req.session_id)
         ((get_session_history store (resolve_session_id freshId req.session_id)).1 ++
           [ChatMsg.human req.message, ChatMsg.ai answer])) := by
  unfold chat
  simp only [h]

lemma chat_ok_elim (deps : Deps) (freshId : String) (req : ChatRequest)
    (store : SessionStore) (r : ChatResponse) (st' : SessionStore)
    (h : chat deps freshId req store = (Except.ok r, st')) :
    r.session_id = resolve_session_id freshId req.session_id ∧
    histOf st' r.session_id =
      histOf store r.session_id ++ [ChatMsg.human req.message, ChatMsg.ai r.reply] ∧
    ∀ k, k ≠ r.session_id → histOf st' k = histOf store k := by
  cases hl : deps.llm_invoke (prompt_messages deps.system_prompt
      (get_session_history store (resolve_session_id freshId req.session_id)).1
      (format_context (deps.retrieve req.message)) req.message) with
  | error e =>
    rw [chat_llm_error deps freshId req store e hl] at h
    simp at h
  | ok answer =>
    rw [chat_llm_ok deps freshId req store answer hl] at h
    simp only [Prod.mk.injEq, Except.ok.injEq] at h
    obtain ⟨h1, h2⟩ := h
    subst h2
    subst h1
    refine ⟨rfl, ?_, ?_⟩
    · unfold histOf
      rw [storeLookup_storeSet_self]
      simp only [Option.getD_some]
      rw [get_session_history_fst]
      rfl
    · intro k hk
      unfold histOf
      rw [storeLookup_storeSet_other _ _ _ _ hk]
      exact histOf_get_session_history_snd store _ k

/-- C2 (no-partial-commit on failure): if the external model invocation
fails, `chat` surfaces the failure to the caller, and no session's history
changes: for every session id, the stored turn list after the failed call
equals the one before, so the two appends never run and no orphan user-only
turn is left behind. -/
theorem chat_no_partial_commit (deps : Deps) (freshId : String)
    (req : ChatRequest) (store : SessionStore) (e : String)
    (h : deps.llm_invoke (prompt_messages deps.system_prompt
        (get_session_history store (resolve_session_id freshId req.session_id)).1
        (format_context (deps.retrieve req.message)) req.message) =
      Except.error e) :
    (chat deps freshId req store).1 = Except.error e ∧
    ∀ sid, histOf (chat deps freshId req store).2 sid = histOf store sid := by
  rw [chat_llm_error deps freshId req store e h]
  exact ⟨rfl, fun sid => histOf_get_session_history_snd store _ sid⟩

/-- C2 witness: a model that always fails, called on a fresh session. -/
theorem chat_no_partial_commit_witness :
    (chat depsFail "fresh-id" (ChatRequest.mk "hi" none) []).1 =
      Except.error "boom" ∧
    histOf (chat depsFail "fresh-id" (ChatRequest.mk "hi" none) []).2 "fresh-id" =
      histOf [] "fresh-id" := by
  have h := chat_no_partial_commit depsFail "fresh-id" (ChatRequest.mk "hi" none)
    [] "boom" rfl
  exact ⟨h.1, h.2 "fresh-id"⟩

/-- C3 (session continuity): for two sequential successful `chat` calls, if
the resolved session ids agree, the resulting history holds the turns of
both calls in call order, user turn then assistant turn per call; if the
resolved ids differ (distinct or freshly generated ids), the two sessions
share no history: each call leaves the other session's history untouched
and each history gains only its own call's pair of turns. -/
theorem chat_session_continuity (deps : Deps) (f1 f2 : String)
    (req1 req2 : ChatRequest) (store : SessionStore) (r1 r2 : ChatResponse)
    (st1 st2 : SessionStore)
    (h1 : chat deps f1 req1 store = (Except.ok r1, st1))
    (h2 : chat deps f2 req2 st1 = (Except.ok r2, st2)) :
    (r1.session_id = r2.session_id →
      histOf st2 r2.session_id = histOf store r2.session_id ++
        [ChatMsg.human req1.message, ChatMsg.ai r1.reply,
         ChatMsg.human req2.message, ChatMsg.ai r2.reply]) ∧
    (r1.session_id ≠ r2.session_id →
      histOf st1 r2.session_id = histOf store r2.session_id ∧
      histOf st2 r1.session_id = histOf st1 r1.session_id ∧
      histOf st2 r1.session_id = histOf store r1.session_id ++
        [ChatMsg.human req1.message, ChatMsg.ai r1.reply] ∧
      histOf st2 r2.session_id = histOf store r2.session_id ++
        [ChatMsg.human req2.message, ChatMsg.ai r2.reply]) := by
  obtain ⟨-, ha1, ho1⟩ := chat_ok_elim deps f1 req1 store r1 st1 h1
  obtain ⟨-, ha2, ho2⟩ := chat_ok_elim deps f2 req2 st1 r2 st2 h2
  constructor
  · intro hid
    rw [ha2, ← hid, ha1]
    simp
  · intro hid
    have e1 : histOf st1 r2.session_id = histOf store r2.session_id :=
      ho1 r2.session_id (fun hh => hid hh.symm)
    have e2 : histOf st2 r1.session_id = histOf st1 r1.session_id :=
      ho2 r1.session_id hid
    refine ⟨e1, e2, ?_, ?_⟩
    · rw [e2, ha1]
    · rw [ha2, e1]

/-- C3 witness: two sequential calls with the same session id "s" on an
empty store produce the four turns in call order. -/
theorem chat_session_continuity_witness :
    histOf (chat depsOk "f2" (ChatRequest.mk "m2" (some "s"))
        (chat depsOk "f1" (ChatRequest.mk "m1" (some "s")) []).2).2 "s" =
      [ChatMsg.human "m1", ChatMsg.ai "Future-Aziz: yo",
       ChatMsg.human "m2", ChatMsg.ai "Future-Aziz: yo"] := by
  have h := chat_session_continuity depsOk "f1" "f2"
    (ChatRequest.mk "m1" (some "s")) (ChatRequest.mk "m2" (some "s")) []
    (ChatResponse.mk "Future-Aziz: yo" "s") (ChatResponse.mk "Future-Aziz: yo" "s")
    (chat depsOk "f1" (ChatRequest.mk "m1" (some "s")) []).2
    (chat depsOk "f2" (ChatRequest.mk "m2" (some "s"))
      (chat depsOk "f1" (ChatRequest.mk "m1" (some "s")) []).2).2
    rfl rfl
  simpa [histOf, storeLookup] using h.1 rfl

/-- C10 (empty session id treated as absent): a request whose session id is
the empty string behaves exactly like a request with no session id: the
freshly generated UUID is used as the session id, its (new, empty) history
backs the turn, and the response carries the generated id rather than
echoing the empty string. -/
theorem chat_empty_session_id (deps : Deps) (freshId msg : String)
    (store : SessionStore) :
    chat deps freshId (ChatRequest.mk msg (some "")) store =
      chat deps freshId (ChatRequest.mk msg none) store ∧
    (∀ r st',
      chat deps freshId (ChatRequest.mk msg (some "")) store = (Except.ok r, st') →
      r.session_id = freshId ∧
      (storeLookup store freshId = none →
        histOf st' freshId = [ChatMsg.human msg, ChatMsg.ai r.reply])) := by
  constructor
  · rfl
  · intro r st' h
    obtain ⟨hsid, ha, -⟩ :=
      chat_ok_elim deps freshId (ChatRequest.mk msg (some "")) store r st' h
    have hsid' : r.session_id = freshId := by
      simpa [resolve_session_id] using hsid
    refine ⟨hsid', ?_⟩
    intro hnone
    rw [hsid'] at ha
    rw [ha]
    simp [histOf, hnone]

/-- C10 witness: a concrete call with an empty-string session id. -/
theorem chat_empty_session_id_witness :
    (ChatResponse.mk "Future-Aziz: yo" "fresh").session_id = "fresh" ∧
    histOf (chat depsOk "fresh" (ChatRequest.mk "hi" (some "")) []).2 "fresh" =
      [ChatMsg.human "hi",
       ChatMsg.ai (ChatResponse.mk "Future-Aziz: yo" "fresh").reply] := by
  have h := (chat_empty_session_id depsOk "fresh" "hi" []).2
    (ChatResponse.mk "Future-Aziz: yo" "fresh")
    (chat depsOk "fresh" (ChatRequest.mk "hi" (some "")) []).2 rfl
  exact ⟨h.1, h.2 rfl⟩

/-! Startup credential checks. -/

/-- C9 (fail-fast on missing credentials): if either required credential is
absent from the environment, startup stops with a fatal error before
ingesting any commits or building the index: the startup result is an error
and never a built document set. -/
theorem startup_missing_credential (groq github : Option String)
    (repos : List Repo) (max_commits : Nat)
    (h : groq = none ∨ github = none) :
    ∃ msg, startup groq github repos max_commits = Except.error msg ∧
      ∀ docs, startup groq github repos max_commits ≠ Except.ok docs := by
  cases h with
  | inl hg =>
    subst hg
    refine ⟨"GROQ_API_KEY is required (Groq Llama 3 key)", ?_, ?_⟩
    · simp [startup, startup_checks]
    · intro docs
      simp [startup, startup_checks]
  | inr hh =>
    subst hh
    by_cases hg : groq.getD "" = ""
    · refine ⟨"GROQ_API_KEY is required (Groq Llama 3 key)", ?_, ?_⟩
      · simp [startup, startup_checks, hg]
      · intro docs
        simp [startup, startup_checks, hg]
    · refine ⟨"GITHUB_TOKEN is required", ?_, ?_⟩
      · simp [startup, startup_checks, hg]
      · intro docs
        simp [startup, startup_checks, hg]

/-- C9 witness: missing Groq credential with a GitHub token present. -/
theorem startup_missing_credential_witness :
    ∃ msg, startup none (some "ghp_token") [repoA] 100 = Except.error msg ∧
      ∀ docs, startup none (some "ghp_token") [repoA] 100 ≠ Except.ok docs :=
  startup_missing_credential none (some "ghp_token") [repoA] 100 (Or.inl rfl)

/-! Sorting by most-recently-updated: permutation, sortedness, stability
under filtering and mapping. -/

lemma insert_by_updated_perm (r : Repo) (s : List Repo) :
    (insert_by_updated r s).Perm (r :: s) := by
  induction s with
  | nil => simp [insert_by_updated]
  | cons x xs ih =>
    by_cases h : r.updated_at < x.updated_at
    · simp only [insert_by_updated, if_pos h]
      exact (ih.cons x).trans (List.Perm.swap r x xs)
    · simp [insert_by_updated, h]

lemma sort_repos_perm (l : List Repo) : (sort_repos_by_updated l).Perm l := by
  induction l with
  | nil => simp [sort_repos_by_updated]
  | cons r rs ih => exact (insert_by_updated_perm r _).trans (ih.cons r)

lemma insert_by_updated_pairwise (r : Repo) (s : List Repo)
    (hs : s.Pairwise (fun a b => b.updated_at ≤ a.updated_at)) :
    (insert_by_updated r s).Pairwise (fun a b => b.updated_at ≤ a.updated_at) := by
  induction s with
  | nil => simp [insert_by_updated]
  | cons x xs ih =>
    obtain ⟨hx, hxs⟩ := List.pairwise_cons.mp hs
    by_cases h : r.updated_at < x.updated_at
    · simp only [insert_by_updated, if_pos h]
      refine List.pairwise_cons.mpr ⟨?_, ih hxs⟩
      intro y hy
      have hy' : y ∈ r :: xs := (insert_by_updated_perm r xs).mem_iff.mp hy
      rcases List.mem_cons.mp hy' with rfl | hyxs
      · exact Nat.le_of_lt h
      · exact hx y hyxs
    · simp only [insert_by_updated, if_neg h]
      refine List.pairwise_cons.mpr ⟨?_, hs⟩
      intro y hy
      rcases List.mem_cons.mp hy with rfl | hyxs
      · exact Nat.le_of_not_lt h
      · exact Nat.le_trans (hx y hyxs) (Nat.le_of_not_lt h)

lemma sort_repos_pairwise (l : List Repo) :
    (sort_repos_by_updated l).Pairwise (fun a b => b.updated_at ≤ a.updated_at) := by
  induction l with
  | nil => simp [sort_repos_by_updated]
  | cons r rs ih => exact insert_by_updated_pairwise r _ ih

lemma repos_loop_append (maxG : Nat) (l₁ l₂ : List Repo) :
    ∀ docs total, repos_loop maxG (l₁ ++ l₂) docs total =
      repos_loop maxG l₂ (repos_loop maxG l₁ docs total).1
        (repos_loop maxG l₁ docs total).2 := by
  induction l₁ with
  | nil => intro docs total; rfl
  | cons r rs ih =>
    intro docs total
    by_cases hcap : maxG ≤ total
    · rw [repos_loop_ge maxG ((r :: rs) ++ l₂) docs total hcap,
          repos_loop_ge maxG (r :: rs) docs total hcap]
      exact (repos_loop_ge maxG l₂ docs total hcap).symm
    · cases hc : r.get_commits with
      | none =>
        simp only [List.cons_append, repos_loop, if_neg hcap, hc]
        exact ih docs total
      | some cs =>
        simp only [List.cons_append, repos_loop, if_neg hcap, hc]
        exact ih _ _

/-- C8 (recency bias): `fetch_all_repos_commits` processes collections in
descending update-time order: the processed list is a permutation of the
input sorted by `updated_at` descending, and whenever a prefix of that
sorted order already fills the global cap, the output is exactly the output
of that prefix — no older collection is ever reached. -/
theorem fetch_recency_bias (repos : List Repo) (max_global_commits : Nat) :
    (sort_repos_by_updated repos).Perm repos ∧
    (sort_repos_by_updated repos).Pairwise
      (fun a b => b.updated_at ≤ a.updated_at) ∧
    fetch_all_repos_commits repos max_global_commits =
      (repos_loop max_global_commits (sort_repos_by_updated repos) [] 0).1 ∧
    ∀ s₁ s₂, sort_repos_by_updated repos = s₁ ++ s₂ →
      max_global_commits ≤ (repos_loop max_global_commits s₁ [] 0).2 →
      fetch_all_repos_commits repos max_global_commits =
        (repos_loop max_global_commits s₁ [] 0).1 := by
  refine ⟨sort_repos_perm repos, sort_repos_pairwise repos, rfl, ?_⟩
  intro s₁ s₂ hsplit hcap
  show (repos_loop max_global_commits (sort_repos_by_updated repos) [] 0).1 = _
  rw [hsplit, repos_loop_append,
    repos_loop_ge max_global_commits s₂ _ _ hcap]

/-- C8 witness: cap 3, recent repository with 5 commits and an older one
with 2: the output is exactly the recent repository's prefix output. -/
theorem fetch_recency_bias_witness :
    fetch_all_repos_commits [repoB, repoA] 3 = (repos_loop 3 [repoA] [] 0).1 :=
  (fetch_recency_bias [repoB, repoA] 3).2.2.2 [repoA] [repoB]
    (by decide) (by decide)

/-! Skip-on-error: a collection whose record fetch fails contributes
nothing and does not stop the run. -/

lemma insert_by_updated_split (r : Repo) (s : List Repo) :
    ∃ s₁ s₂, insert_by_updated r s = s₁ ++ r :: s₂ ∧ s₁ ++ s₂ = s := by
  induction s with
  | nil => exact ⟨[], [], rfl, rfl⟩
  | cons x xs ih =>
    by_cases h : r.updated_at < x.updated_at
    · obtain ⟨s₁, s₂, h1, h2⟩ := ih
      exact ⟨x :: s₁, s₂, by simp [insert_by_updated, h, h1], by simp [h2]⟩
    · exact ⟨[], x :: xs, by simp [insert_by_updated, h], rfl⟩

lemma insert_by_updated_all_le (r : Repo) (s : List Repo)
    (h : ∀ y ∈ s, y.updated_at ≤ r.updated_at) :
    insert_by_updated r s = r :: s := by
  cases s with
  | nil => rfl
  | cons x xs =>
    have hx : ¬ r.updated_at < x.updated_at :=
      Nat.not_lt_of_le (h x (List.mem_cons_self x xs))
    simp [insert_by_updated, hx]

lemma filter_insert_by_updated_pos (p : Repo → Bool) (r : Repo) (s : List Repo)
    (hs : s.Pairwise (fun a b => b.updated_at ≤ a.updated_at))
    (hp : p r = true) :
    (insert_by_updated r s).filter p = insert_by_updated r (s.filter p) := by
  induction s with
  | nil => simp [insert_by_updated, List.filter_cons, hp]
  | cons x xs ih =>
    obtain ⟨hx, hxs⟩ := List.pairwise_cons.mp hs
    by_cases h : r.updated_at < x.updated_at
    · by_cases hpx : p x = true
      · simp [insert_by_updated, h, List.filter_cons, hpx, ih hxs]
      · simp [insert_by_updated, h, List.filter_cons, hpx, ih hxs]
    · have hall : ∀ y ∈ (x :: xs).filter p, y.updated_at ≤ r.updated_at := by
        intro y hy
        have hy' := List.mem_of_mem_filter hy
        rcases List.mem_cons.mp hy' with rfl | hyy
        · exact Nat.le_of_not_lt h
        · exact Nat.le_trans (hx y hyy) (Nat.le_of_not_lt h)
      rw [insert_by_updated_all_le _ _ hall]
      simp [insert_by_updated, h, List.filter_cons, hp]

lemma filter_insert_by_updated_neg (p : Repo → Bool) (r : Repo) (s : List Repo)
    (hp : p r = false) :
    (insert_by_updated r s).filter p = s.filter p := by
  obtain ⟨s₁, s₂, h1, h2⟩ := insert_by_updated_split r s
  rw [h1, ← h2]
  simp [List.filter_append, List.filter_cons, hp]

lemma sort_repos_filter (p : Repo → Bool) (l : List Repo) :
    sort_repos_by_updated (l.filter p) = (sort_repos_by_updated l).filter p := by
  induction l with
  | nil => rfl
  | cons r rs ih =>
    by_cases hp : p r = true
    · have hf : (r :: rs).filter p = r :: rs.filter p := by
        simp [List.filter_cons, hp]
      rw [hf]
      show insert_by_updated r (sort_repos_by_updated (rs.filter p)) = _
      rw [ih, show sort_repos_by_updated (r :: rs) =
        insert_by_updated r (sort_repos_by_updated rs) from rfl]
      exact (filter_insert_by_updated_pos p r _ (sort_repos_pairwise rs) hp).symm
    · have hp' : p r = false := Bool.not_eq_true _ |>.mp hp
      have hf : (r :: rs).filter p = rs.filter p := by
        simp [List.filter_cons, hp']
      rw [hf, ih, show sort_repos_by_updated (r :: rs) =
        insert_by_updated r (sort_repos_by_updated rs) from rfl]
      exact (filter_insert_by_updated_neg p r _ hp').symm

lemma repos_loop_filter_some (maxG : Nat) (l : List Repo) :
    ∀ docs total,
      repos_loop maxG (l.filter (fun r => r.get_commits.isSome)) docs total =
        repos_loop maxG l docs total := by
  induction l with
  | nil => intro docs total; rfl
  | cons r rs ih =>
    intro docs total
    by_cases hcap : maxG ≤ total
    · rw [repos_loop_ge _ _ _ _ hcap, repos_loop_ge _ _ _ _ hcap]
    · cases hc : r.get_commits with
      | none =>
        have hf : (r :: rs).filter (fun r => r.get_commits.isSome) =
            rs.filter (fun r => r.get_commits.isSome) := by
          simp [List.filter_cons, hc]
        rw [hf, ih]
        simp [repos_loop, hcap, hc]
      | some cs =>
        have hf : (r :: rs).filter (fun r => r.get_commits.isSome) =
            r :: rs.filter (fun r => r.get_commits.isSome) := by
          simp [List.filter_cons, hc]
        rw [hf]
        simp only [repos_loop, if_neg hcap, hc]
        exact ih _ _

lemma fetch_filter_some (repos : List Repo) (maxG : Nat) :
    fetch_all_repos_commits (repos.filter (fun r => r.get_commits.isSome)) maxG =
      fetch_all_repos_commits repos maxG := by
  simp only [fetch_all_repos_commits]
  rw [sort_repos_filter, repos_loop_filter_some]

/-- C6 (skip-on-error): a collection whose record fetch fails, anywhere in
the input, is skipped entirely: `fetch_all_repos_commits` returns exactly
what it returns on the input without that collection, so the remaining N-1
collections are ingested and the failure is never fatal to the run. -/
theorem fetch_skip_on_error (max_global_commits : Nat) (l₁ l₂ : List Repo)
    (r : Repo) (h : r.get_commits = none) :
    fetch_all_repos_commits (l₁ ++ r :: l₂) max_global_commits =
      fetch_all_repos_commits (l₁ ++ l₂) max_global_commits := by
  rw [← fetch_filter_some (l₁ ++ r :: l₂), ← fetch_filter_some (l₁ ++ l₂)]
  congr 1
  simp [List.filter_append, List.filter_cons, h]

/-- C6 witness: an inaccessible repository between two healthy ones. -/
theorem fetch_skip_on_error_witness :
    fetch_all_repos_commits [repoA, repoErr, repoB] 100 =
      fetch_all_repos_commits [repoA, repoB] 100 :=
  fetch_skip_on_error 100 [repoA] [repoB] repoErr rfl

/-! Empty-content filtering: blank commit messages yield no unit and spend
no budget. -/

lemma commits_loop_filter_blank (maxG : Nat) (rn : String) (cs : List Commit) :
    ∀ docs total,
      commits_loop maxG rn
          (cs.filter (fun c => !decide (pyStrip c.message = ""))) docs total =
        commits_loop maxG rn cs docs total := by
  induction cs with
  | nil => intro docs total; rfl
  | cons c cs ih =>
    intro docs total
    by_cases hcap : maxG ≤ total
    · rw [commits_loop_ge _ _ _ _ _ hcap, commits_loop_ge _ _ _ _ _ hcap]
    · by_cases hb : pyStrip c.message = ""
      · have hf : (c :: cs).filter (fun c => !decide (pyStrip c.message = "")) =
            cs.filter (fun c => !decide (pyStrip c.message = "")) := by
          simp [List.filter_cons, hb]
        rw [hf, ih]
        simp [commits_loop, hcap, hb]
      · have hf : (c :: cs).filter (fun c => !decide (pyStrip c.message = "")) =
            c :: cs.filter (fun c => !decide (pyStrip c.message = "")) := by
          simp [List.filter_cons, hb]
        rw [hf]
        simp only [commits_loop, if_neg hcap, if_neg hb]
        exact ih _ _

lemma repos_loop_dropBlank (maxG : Nat) (l : List Repo) :
    ∀ docs total,
      repos_loop maxG (l.map dropBlankCommits) docs total =
        repos_loop maxG l docs total := by
  induction l with
  | nil => intro docs total; rfl
  | cons r rs ih =>
    intro docs total
    by_cases hcap : maxG ≤ total
    · rw [repos_loop_ge _ _ _ _ hcap, repos_loop_ge _ _ _ _ hcap]
    · cases hc : r.get_commits with
      | none =>
        have hdc : (dropBlankCommits r).get_commits = none := by
          simp [dropBlankCommits, hc]
        simp only [List.map_cons, repos_loop, if_neg hcap, hdc, hc]
        exact ih docs total
      | some cs =>
        have hdc : (dropBlankCommits r).get_commits =
            some (cs.filter (fun c => !decide (pyStrip c.message = ""))) := by
          simp [dropBlankCommits, hc]
        have hdn : (dropBlankCommits r).full_name = r.full_name := rfl
        simp only [List.map_cons, repos_loop, if_neg hcap, hdc, hc, hdn]
        rw [commits_loop_filter_blank]
        exact ih _ _

lemma sort_repos_map (f : Repo → Repo)
    (hf : ∀ r, (f r).updated_at = r.updated_at) (l : List Repo) :
    sort_repos_by_updated (l.map f) = (sort_repos_by_updated l).map f := by
  have hins : ∀ (r : Repo) (s : List Repo),
      insert_by_updated (f r) (s.map f) = (insert_by_updated r s).map f := by
    intro r s
    induction s with
    | nil => rfl
    | cons x xs ih =>
      by_cases h : r.updated_at < x.updated_at
      · simp [insert_by_updated, hf, h, ih]
      · simp [insert_by_updated, hf, h]
  induction l with
  | nil => rfl
  | cons r rs ih => simp [sort_repos_by_updated, ih, hins]

lemma commits_loop_content (maxG : Nat) (rn : String) (cs : List Commit) :
    ∀ docs total, (∀ d ∈ docs, d.page_content ≠ "") →
      ∀ d ∈ (commits_loop maxG rn cs docs total).1, d.page_content ≠ "" := by
  induction cs with
  | nil => intro docs total h; simpa [commits_loop] using h
  | cons c cs ih =>
    intro docs total h
    by_cases hcap : maxG ≤ total
    · simpa [commits_loop, hcap] using h
    · by_cases hb : pyStrip c.message = ""
      · simpa [commits_loop, hcap, hb] using ih docs total h
      · have h' : ∀ d ∈ docs ++ [commitDoc rn c (pyStrip c.message)],
            d.page_content ≠ "" := by
          intro d hd
          rcases List.mem_append.mp hd with hd | hd
          · exact h d hd
          · rw [List.mem_singleton.mp hd]
            simpa [commitDoc] using hb
        simpa [commits_loop, hcap, hb] using ih _ _ h'

lemma repos_loop_content (maxG : Nat) (l : List Repo) :
    ∀ docs total, (∀ d ∈ docs, d.page_content ≠ "") →
      ∀ d ∈ (repos_loop maxG l docs total).1, d.page_content ≠ "" := by
  induction l with
  | nil => intro docs total h; simpa [repos_loop] using h
  | cons r rs ih =>
    intro docs total h
    by_cases hcap : maxG ≤ total
    · simpa [repos_loop, hcap] using h
    · cases hc : r.get_commits with
      | none => simpa [repos_loop, hcap, hc] using ih docs total h
      | some cs =>
        have h' := commits_loop_content maxG r.full_name cs docs total h
        simpa [repos_loop, hcap, hc] using ih _ _ h'

/-- C4 (empty-content filtering): commits whose message is empty or
whitespace-only never produce a document and never consume the global
budget — removing them from the input changes nothing, for any cap — and
every produced document has non-empty content. -/
theorem fetch_blank_commits (repos : List Repo) (max_global_commits : Nat) :
    fetch_all_repos_commits (repos.map dropBlankCommits) max_global_commits =
      fetch_all_repos_commits repos max_global_commits ∧
    ∀ d ∈ fetch_all_repos_commits repos max_global_commits,
      d.page_content ≠ "" := by
  constructor
  · simp only [fetch_all_repos_commits]
    rw [sort_repos_map dropBlankCommits (fun r => rfl), repos_loop_dropBlank]
  · intro d hd
    exact repos_loop_content max_global_commits _ [] 0 (by simp) d hd

/-- C4 witness: a repository with one whitespace-only and one real commit. -/
theorem fetch_blank_commits_witness :
    fetch_all_repos_commits ([repoBlank].map dropBlankCommits) 10 =
      fetch_all_repos_commits [repoBlank] 10 ∧
    (commitDoc "me/blank" (mkCommit "hello" "shw1www") "hello").page_content ≠ "" :=
  ⟨(fetch_blank_commits [repoBlank] 10).1,
   (fetch_blank_commits [repoBlank] 10).2 _ (by decide)⟩
